import Mathlib

/-!
Verification development for the CRYSTIQ visuals portfolio application
(`src/app.py`): a Flask web application over three Postgres tables
(`admin`, `category`, `design`).

The database state is embedded shallowly: each table is a list of rows, a
committed write replaces the state, and every route handler from the source
becomes a pure function from the request data and the current state to the
new state and a response value.  SQL behaviour that the source relies on is
translated into the operations that trigger it:

* `ON DELETE SET NULL` on `design.category_id` (declared in `init_db`'s DDL)
  is part of the category-delete operation;
* `UNIQUE` on `category.name` and on `admin.username` makes the
  corresponding `INSERT`/`UPDATE` fail, which the embedding returns as an
  explicit failure where the source would see a raised exception;
* the `NOT NULL` foreign key check on `design.category_id` makes an
  `INSERT`/`UPDATE` with a nonexistent category id fail;
* `ILIKE` is modelled by `likeMatch` below (ASCII lowering of both sides,
  then SQL `LIKE` pattern matching where `%` matches any sequence, `_`
  matches one character and a backslash escapes the next character);
* `ORDER BY featured DESC, created_at DESC` is modelled by sorting with
  `designOrder`; ties are resolved deterministically here, which refines the
  unspecified tie order of the live database.

Password hashing (`werkzeug.security.generate_password_hash` /
`check_password_hash`) is kept abstract: the hashing and checking functions
are parameters of the operations that use them.
-/

namespace Crystiq

/-- Row of the `admin` table (`init_db`: id SERIAL, username UNIQUE NOT NULL,
password_hash NOT NULL). -/
structure AdminRow where
  id : Nat
  username : String
  password_hash : String
  deriving Repr, DecidableEq

/-- Row of the `category` table (`init_db`: id SERIAL, name UNIQUE NOT NULL,
created_at TIMESTAMP).  Timestamps are abstracted as naturals. -/
structure CategoryRow where
  id : Nat
  name : String
  created_at : Nat
  deriving Repr, DecidableEq

/-- Row of the `design` table (`init_db`: id SERIAL, title NOT NULL,
image_url NOT NULL, category_id INTEGER nullable with `ON DELETE SET NULL`,
featured INTEGER DEFAULT 0, created_at TIMESTAMP). -/
structure DesignRow where
  id : Nat
  title : String
  image_url : String
  category_id : Option Nat
  featured : Nat
  created_at : Nat
  deriving Repr, DecidableEq

/-- The whole database: the three tables created by `init_db`. -/
structure Tables where
  admins : List AdminRow
  categories : List CategoryRow
  designs : List DesignRow
  deriving Repr, DecidableEq

/-- Freshly created empty tables. -/
def emptyTables : Tables := ⟨[], [], []⟩

/-- The Flask session data the application reads and writes
(`session['admin_id']`, `session['admin_username']`). -/
structure Session where
  admin_id : Option Nat
  admin_username : Option String
  deriving Repr, DecidableEq

/-- Translation of `is_logged_in`: `session.get('admin_id') is not None`. -/
def is_logged_in (s : Session) : Bool := s.admin_id.isSome

/-- Translation of Python's `str.strip()`: remove leading and trailing
whitespace. -/
def strip (s : String) : String :=
  ⟨((s.toList.dropWhile Char.isWhitespace).reverse.dropWhile Char.isWhitespace).reverse⟩

/-- Translation of the cast Postgres applies to a text parameter bound to an
integer column: the value of a non-empty all-digit string, and a failure
(`none`) otherwise. -/
def parseNat? (s : String) : Option Nat :=
  match s.toList with
  | [] => none
  | cs => if cs.all Char.isDigit
          then some (cs.foldl (fun n c => 10 * n + (c.toNat - 48)) 0)
          else none

/-- A flash message with its bootstrap category, as produced by
`flash(msg, kind)` in the source. -/
inductive Flash where
  | success (msg : String)
  | danger (msg : String)
  | info (msg : String)
  deriving Repr, DecidableEq

/-- Translation of `init_db`: `CREATE TABLE IF NOT EXISTS` for the three
tables.  `none` stands for a database in which the tables have not been
created yet; when the tables already exist the statement changes nothing. -/
def init_db (db : Option Tables) : Tables :=
  match db with
  | none => emptyTables
  | some t => t

/-- Translation of `create_admin_if_missing`: seed one admin row (username
and password from configuration, password stored as `hashF` of the
plaintext) when and only when the `admin` table is empty.  `hashF` models
`generate_password_hash`; `new_id` is the id the SERIAL column assigns. -/
def create_admin_if_missing (hashF : String → String) (user pw : String)
    (new_id : Nat) (t : Tables) : Tables :=
  match t.admins with
  | [] => { t with admins := [⟨new_id, user, hashF pw⟩] }
  | _ :: _ => t

/-- The startup sequence in `__main__`: `init_db()` then
`create_admin_if_missing()`. -/
def bootstrap (hashF : String → String) (user pw : String) (new_id : Nat)
    (db : Option Tables) : Tables :=
  create_admin_if_missing hashF user pw new_id (init_db db)

/-- Response of the `toggle_featured` route: either HTTP 404 with JSON
`{'ok': False}`, or JSON `{'ok': True, 'featured': new}`. -/
inductive ToggleResponse where
  | notFound
  | ok (featured : Nat)
  deriving Repr, DecidableEq

/-- Translation of `toggle_featured`: read the `featured` column of the row
with the given id (`one=True` returns the first match); if no row exists
answer 404 without writing; otherwise `new = 0 if cur['featured'] else 1`
is written back for every row with that id and answered as JSON. -/
def toggle_featured (design_id : Nat) (t : Tables) : Tables × ToggleResponse :=
  match t.designs.find? (fun d => d.id == design_id) with
  | none => (t, .notFound)
  | some cur =>
    let new : Nat := if cur.featured == 0 then 1 else 0
    ({ t with designs := t.designs.map fun r =>
          if r.id == design_id then { r with featured := new } else r },
     .ok new)

/-- Translation of the POST branch of `admin_categories`: trim the submitted
name; an empty name only flashes `Name required`; otherwise the `INSERT` is
attempted, and a `UNIQUE` violation on `category.name` is caught by the
`try`/`except` and reported with the generic conflict flash.  `new_id` and
`new_ts` are the SERIAL id and insert timestamp. -/
def admin_categories_post (name_field : String) (new_id new_ts : Nat)
    (t : Tables) : Tables × Flash :=
  let name := strip name_field
  if name = "" then (t, .danger "Name required")
  else if t.categories.any (fun c => c.name == name) then
    (t, .danger "Category could not be added (maybe exists)")
  else
    ({ t with categories := t.categories ++ [⟨new_id, name, new_ts⟩] },
     .success "Category added")

/-- Translation of `admin_category_delete`: `DELETE FROM category WHERE id`.
The `ON DELETE SET NULL` clause of the foreign key declared in `init_db`
clears `category_id` on every design that referenced the deleted row. -/
def admin_category_delete (cat_id : Nat) (t : Tables) : Tables × Flash :=
  ({ t with
      categories := t.categories.filter (fun c => !(c.id == cat_id)),
      designs := t.designs.map fun d =>
        if d.category_id == some cat_id then { d with category_id := none } else d },
   .info "Category deleted")

/-- Translation of `admin_category_edit`: update the name when the trimmed
submission is non-empty.  Renaming onto another existing category name
violates the `UNIQUE` constraint; the uncaught exception aborts the request
before the commit, leaving the state unchanged. -/
def admin_category_edit (cat_id : Nat) (name_field : String) (t : Tables) :
    Tables :=
  let name := strip name_field
  if name = "" then t
  else if t.categories.any (fun c => !(c.id == cat_id) && c.name == name) then t
  else { t with categories := t.categories.map fun c =>
          if c.id == cat_id then { c with name := name } else c }

/-- The design form fields as submitted: `request.form.get` yields `none`
for an absent field.  `featured` is the raw checkbox value (`some "on"` when
checked).  `category` is the raw text value of the category select; the
database casts it to an integer at insert time. -/
structure DesignForm where
  title : Option String
  image_url : Option String
  category : Option String
  featured : Option String
  deriving Repr, DecidableEq

/-- Translation of `request.form.get('category') or None`: an absent or
empty category field becomes `None`. -/
def formCategory (c : Option String) : Option String :=
  match c with
  | none => none
  | some s => if s = "" then none else some s

/-- Outcome of a design insert or update. -/
inductive DesignWriteResponse where
  /-- flash `Title and image URL required` and redirect, with no write. -/
  | validationError
  /-- an uncaught database error (integer cast failure or foreign key
  violation on `category_id`): HTTP 500 and nothing committed. -/
  | dbError
  /-- the write committed, with the given flash. -/
  | done (msg : Flash)
  deriving Repr, DecidableEq

/-- Translation of `admin_design_add`: trim title and image URL and reject
if either is empty; otherwise insert one row with the optional category
(text value cast to an integer, which must reference an existing category)
and `featured = 1` exactly when the checkbox value is `on`.  `new_id` and
`new_ts` are the SERIAL id and insert timestamp. -/
def admin_design_add (form : DesignForm) (new_id new_ts : Nat) (t : Tables) :
    Tables × DesignWriteResponse :=
  let title := strip (form.title.getD "")
  let url := strip (form.image_url.getD "")
  let featured : Nat := if form.featured == some "on" then 1 else 0
  if title = "" ∨ url = "" then (t, .validationError)
  else
    match formCategory form.category with
    | none =>
      ({ t with designs := t.designs ++ [⟨new_id, title, url, none, featured, new_ts⟩] },
       .done (.success "Design added"))
    | some s =>
      match parseNat? s with
      | none => (t, .dbError)
      | some cid =>
        if t.categories.any (fun c => c.id == cid) then
          ({ t with designs :=
              t.designs ++ [⟨new_id, title, url, some cid, featured, new_ts⟩] },
           .done (.success "Design added"))
        else (t, .dbError)

/-- Translation of `admin_design_edit`: update title, image URL, category
and featured flag of every row with the given id, with no validation of the
trimmed title or URL.  A non-numeric category value fails the integer cast;
a numeric one that matches no category violates the foreign key when at
least one row is updated.  Either failure aborts before the commit. -/
def admin_design_edit (design_id : Nat) (form : DesignForm) (t : Tables) :
    Tables × DesignWriteResponse :=
  let title := strip (form.title.getD "")
  let url := strip (form.image_url.getD "")
  let featured : Nat := if form.featured == some "on" then 1 else 0
  let update : Option Nat → Tables := fun cat =>
    { t with designs := t.designs.map fun d =>
        if d.id == design_id
        then { d with title := title, image_url := url,
                      category_id := cat, featured := featured }
        else d }
  match formCategory form.category with
  | none => (update none, .done (.success "Design updated"))
  | some s =>
    match parseNat? s with
    | none => (t, .dbError)
    | some cid =>
      if t.designs.any (fun d => d.id == design_id)
         && !(t.categories.any (fun c => c.id == cid)) then
        (t, .dbError)
      else (update (some cid), .done (.success "Design updated"))

/-- Translation of `admin_design_delete`: `DELETE FROM design WHERE id`. -/
def admin_design_delete (design_id : Nat) (t : Tables) : Tables × Flash :=
  ({ t with designs := t.designs.filter (fun d => !(d.id == design_id)) },
   .info "Design deleted")

/-- A route-level response: a redirect to a location or a rendered page. -/
inductive RouteResponse where
  | redirect (location : String)
  | page (body : String)
  deriving Repr, DecidableEq

/-- Translation of the `admin_required` decorator: an unauthenticated
session is redirected to `url_for('admin_login', next=request.path)`, i.e.
to the login route carrying the requested path in the `next` query
parameter; otherwise the wrapped handler runs unmodified. -/
def admin_required (path : String) (handler : Tables → Tables × RouteResponse)
    (s : Session) (t : Tables) : Tables × RouteResponse :=
  if is_logged_in s then handler t
  else (t, .redirect ("/admin/login?next=" ++ path))

/-- Response of the POST branch of `admin_login`. -/
inductive LoginResponse where
  /-- flash `Logged in` and redirect to the given location. -/
  | success (location : String)
  /-- flash `Invalid credentials` and re-render the login page. -/
  | invalid
  deriving Repr, DecidableEq

/-- Translation of the POST branch of `admin_login`: look the admin row up
by username, check the password against the stored hash with `checkF`
(modelling `check_password_hash`), and on success store the admin id and
username in the session and redirect to `url_for('admin_dashboard')`, which
is `/admin`.  The handler never reads the `next` query parameter; it is
kept as the argument `nextq` to state that fact. -/
def admin_login_post (checkF : String → String → Bool)
    (username password : String) (nextq : Option String)
    (s : Session) (t : Tables) : Session × LoginResponse :=
  match t.admins.find? (fun a => a.username == username) with
  | none => (s, .invalid)
  | some a =>
    if checkF a.password_hash password then
      ({ s with admin_id := some a.id, admin_username := some a.username },
       .success "/admin")
    else (s, .invalid)

/-- A database failure surfaced to a route as an exception. -/
inductive DbFailure where
  | uniqueViolation
  deriving Repr, DecidableEq

/-- Translation of `reset_admin`: with no authentication check, overwrite
username and password hash of every `admin` row (the `UPDATE` has no `WHERE`
clause) with the configured values, falling back to the fixed defaults, and
return the new plaintext credentials in the body.  With two or more rows
the `UPDATE` would give every row the same username and violate the
`UNIQUE` constraint, aborting before the commit.  The session argument is
unused, exactly as the route ignores the session. -/
def reset_admin (hashF : String → String) (cfg_user cfg_pw : Option String)
    (s : Session) (t : Tables) : Except DbFailure (Tables × String) :=
  let new_username := cfg_user.getD "RBADMINS"
  let new_password := cfg_pw.getD "RB_ADMINS_03"
  let new_hash := hashF new_password
  if 2 ≤ t.admins.length then .error .uniqueViolation
  else .ok ({ t with admins := t.admins.map fun a =>
                { a with username := new_username, password_hash := new_hash } },
            "Admin updated → Username: " ++ new_username ++ ", Password: " ++ new_password)

/-- Fuel-indexed SQL `LIKE` pattern matcher over character lists: `%`
matches any sequence, `_` matches exactly one character, and a backslash
(the default escape character) makes the next pattern character literal.
Every recursive call shrinks `pattern length + text length`, so any fuel
above that sum gives the real answer; `likeMatch` supplies such a fuel. -/
def likeMatchF : Nat → List Char → List Char → Bool
  | 0, _, _ => false
  | _ + 1, [], ts => ts.isEmpty
  | fuel + 1, p :: pr, ts =>
    if p = '%' then
      likeMatchF fuel pr ts ||
        (match ts with
         | [] => false
         | _ :: tr => likeMatchF fuel (p :: pr) tr)
    else if p = '_' then
      match ts with
      | [] => false
      | _ :: tr => likeMatchF fuel pr tr
    else if p = '\\' then
      match pr with
      | [] => false
      | e :: pr2 =>
        match ts with
        | [] => false
        | c :: tr => c == e && likeMatchF fuel pr2 tr
    else
      match ts with
      | [] => false
      | c :: tr => c == p && likeMatchF fuel pr tr

/-- SQL `LIKE` pattern matching of a pattern against a text. -/
def likeMatch (ps ts : List Char) : Bool :=
  likeMatchF (ps.length + ts.length + 1) ps ts

/-- Characters of a string lowered with the ASCII lowering that Postgres
applies to both operands of `ILIKE` in the C locale. -/
def lowerList (s : String) : List Char := s.toList.map Char.toLower

/-- Translation of Postgres `text ILIKE pattern`: case-insensitive `LIKE`. -/
def ilike (pat text : String) : Bool := likeMatch (lowerList pat) (lowerList text)

/-- One result record of the gallery and search queries:
`SELECT design.*, category.name AS category_name`. -/
structure SearchRow where
  design : DesignRow
  category_name : Option String
  deriving Repr, DecidableEq

/-- The `LEFT JOIN category ON design.category_id = category.id` column:
the name of the referenced category, when there is one. -/
def joined_category_name (t : Tables) (d : DesignRow) : Option String :=
  d.category_id.bind fun cid =>
    (t.categories.find? (fun c => c.id == cid)).map (fun c => c.name)

/-- The row order of `ORDER BY featured DESC, created_at DESC`: `a` comes
no later than `b`. -/
def designOrder (a b : DesignRow) : Prop :=
  b.featured < a.featured ∨ (a.featured = b.featured ∧ b.created_at ≤ a.created_at)

instance : DecidableRel designOrder := fun a b =>
  inferInstanceAs (Decidable (b.featured < a.featured ∨
    (a.featured = b.featured ∧ b.created_at ≤ a.created_at)))

instance : IsTotal DesignRow designOrder := by
  constructor
  intro a b
  simp only [designOrder]
  omega

instance : IsTrans DesignRow designOrder := by
  constructor
  intro a b c
  simp only [designOrder]
  omega

/-- Translation of `api_search`: trim the `q` query parameter (absent means
`''`), keep the designs whose title or image URL matches `ILIKE '%q%'`, sort
featured-first then newest-first, and return every matching record together
with the joined category name — no size cap. -/
def api_search (q : Option String) (t : Tables) : List SearchRow :=
  let qt := strip (q.getD "")
  let pat := "%" ++ qt ++ "%"
  (List.insertionSort designOrder
      (t.designs.filter (fun d => ilike pat d.title || ilike pat d.image_url))).map
    (fun d => ⟨d, joined_category_name t d⟩)

/-- Translation of the design query of `gallery`: the same select as
`api_search`, but the `ILIKE` clause is added only when the trimmed `q` is
non-empty, and a non-empty `cat` parameter further restricts the rows to
those whose joined category id equals it (a design with no category never
matches).  A non-numeric `cat` would fail the integer cast and abort the
request; no claim exercises that, and it is modelled as matching nothing. -/
def gallery_designs (q cat : Option String) (t : Tables) : List SearchRow :=
  let qt := strip (q.getD "")
  let catv := cat.getD ""
  let matched := t.designs.filter fun d =>
    (if catv = "" then true
     else match d.category_id with
          | none => false
          | some cid => (t.categories.any (fun c => c.id == cid))
                          && (parseNat? catv == some cid))
    && (if qt = "" then true
        else ilike ("%" ++ qt ++ "%") d.title || ilike ("%" ++ qt ++ "%") d.image_url)
  (List.insertionSort designOrder matched).map (fun d => ⟨d, joined_category_name t d⟩)

/-- The string `q` occurs in the string `s` as a case-insensitive
(ASCII-lowered) contiguous substring. -/
def substrCI (q s : String) : Prop := lowerList q <:+: lowerList s

instance (q s : String) : Decidable (substrCI q s) :=
  inferInstanceAs (Decidable (lowerList q <:+: lowerList s))

/-- The string contains none of the SQL pattern characters `%`, `_` and
backslash. -/
def metaFree (s : String) : Prop :=
  ∀ c ∈ s.toList, c ≠ '%' ∧ c ≠ '_' ∧ c ≠ '\\'

instance (s : String) : Decidable (metaFree s) := by
  unfold metaFree
  infer_instance

/-- One state-changing operation of the application, with the
environment-chosen values (fresh SERIAL ids, timestamps, configuration and
hashing function) as constructor arguments. -/
inductive AdminOp where
  | categoryAdd (name_field : String) (new_id new_ts : Nat)
  | categoryEdit (cat_id : Nat) (name_field : String)
  | categoryDelete (cat_id : Nat)
  | designAdd (form : DesignForm) (new_id new_ts : Nat)
  | designEdit (design_id : Nat) (form : DesignForm)
  | designDelete (design_id : Nat)
  | toggleFeatured (design_id : Nat)
  | adminReset (hashF : String → String) (cfg_user cfg_pw : Option String)
  | adminSeed (hashF : String → String) (user pw : String) (new_id : Nat)

/-- The new database state an operation commits (an aborted write leaves
the state unchanged). -/
def applyOp (op : AdminOp) (t : Tables) : Tables :=
  match op with
  | .categoryAdd n i ts => (admin_categories_post n i ts t).1
  | .categoryEdit i n => admin_category_edit i n t
  | .categoryDelete i => (admin_category_delete i t).1
  | .designAdd f i ts => (admin_design_add f i ts t).1
  | .designEdit i f => (admin_design_edit i f t).1
  | .designDelete i => (admin_design_delete i t).1
  | .toggleFeatured i => (toggle_featured i t).1
  | .adminReset h u p =>
    match reset_admin h u p ⟨none, none⟩ t with
    | .ok (t2, _) => t2
    | .error _ => t
  | .adminSeed h u p i => create_admin_if_missing h u p i t

/-- The data-model invariant of the spec for designs: title and image URL
are non-empty text. -/
def DesignsNonEmptyText (t : Tables) : Prop :=
  ∀ d ∈ t.designs, d.title ≠ "" ∧ d.image_url ≠ ""

instance (t : Tables) : Decidable (DesignsNonEmptyText t) := by
  unfold DesignsNonEmptyText
  infer_instance

/-- The side condition under which a design edit keeps titles and image
URLs non-empty: the submitted trimmed title and image URL are non-empty.
Every other operation needs no condition. -/
def editValidated : AdminOp → Prop
  | .designEdit _ f => strip (f.title.getD "") ≠ "" ∧ strip (f.image_url.getD "") ≠ ""
  | _ => True

/-! Lemmas about the `LIKE` matcher. -/

/-- Unfolding of `likeMatchF` at positive fuel and non-empty pattern. -/
theorem likeMatchF_succ (fuel : Nat) (p : Char) (pr ts : List Char) :
    likeMatchF (fuel + 1) (p :: pr) ts =
      (if p = '%' then
        likeMatchF fuel pr ts ||
          (match ts with
           | [] => false
           | _ :: tr => likeMatchF fuel (p :: pr) tr)
      else if p = '_' then
        match ts with
        | [] => false
        | _ :: tr => likeMatchF fuel pr tr
      else if p = '\\' then
        match pr with
        | [] => false
        | e :: pr2 =>
          match ts with
          | [] => false
          | c :: tr => c == e && likeMatchF fuel pr2 tr
      else
        match ts with
        | [] => false
        | c :: tr => c == p && likeMatchF fuel pr tr) := rfl

/-- The result of `likeMatchF` does not depend on the fuel, as long as the
fuel exceeds the combined length of pattern and text. -/
theorem likeMatchF_irrel : ∀ (f g : Nat) (ps ts : List Char),
    ps.length + ts.length < f → ps.length + ts.length < g →
    likeMatchF f ps ts = likeMatchF g ps ts := by
  intro f
  induction f with
  | zero => intro g ps ts h1 _; exact absurd h1 (Nat.not_lt_zero _)
  | succ f ih =>
    intro g ps ts h1 h2
    cases g with
    | zero => exact absurd h2 (Nat.not_lt_zero _)
    | succ g =>
      cases ps with
      | nil => rfl
      | cons p pr =>
        rw [likeMatchF_succ, likeMatchF_succ]
        simp only [List.length_cons] at h1 h2
        by_cases hp : p = '%'
        · rw [if_pos hp, if_pos hp]
          have e1 : likeMatchF f pr ts = likeMatchF g pr ts :=
            ih g pr ts (by omega) (by omega)
          rw [e1]
          cases ts with
          | nil => rfl
          | cons c tr =>
            simp only [List.length_cons] at h1 h2
            have e2 : likeMatchF f (p :: pr) tr = likeMatchF g (p :: pr) tr :=
              ih g (p :: pr) tr (by simp only [List.length_cons]; omega)
                (by simp only [List.length_cons]; omega)
            dsimp only
            rw [e2]
        · rw [if_neg hp, if_neg hp]
          by_cases hu : p = '_'
          · rw [if_pos hu, if_pos hu]
            cases ts with
            | nil => rfl
            | cons c tr =>
              simp only [List.length_cons] at h1 h2
              dsimp only
              exact ih g pr tr (by omega) (by omega)
          · rw [if_neg hu, if_neg hu]
            by_cases he : p = '\\'
            · rw [if_pos he, if_pos he]
              cases pr with
              | nil => rfl
              | cons e pr2 =>
                cases ts with
                | nil => rfl
                | cons c tr =>
                  simp only [List.length_cons] at h1 h2
                  have e3 : likeMatchF f pr2 tr = likeMatchF g pr2 tr :=
                    ih g pr2 tr (by omega) (by omega)
                  dsimp only
                  rw [e3]
            · rw [if_neg he, if_neg he]
              cases ts with
              | nil => rfl
              | cons c tr =>
                simp only [List.length_cons] at h1 h2
                have e4 : likeMatchF f pr tr = likeMatchF g pr tr :=
                  ih g pr tr (by omega) (by omega)
                dsimp only
                rw [e4]

/-- Any sufficient fuel computes `likeMatch`. -/
theorem likeMatchF_eq_likeMatch (f : Nat) (ps ts : List Char)
    (h : ps.length + ts.length < f) :
    likeMatchF f ps ts = likeMatch ps ts :=
  likeMatchF_irrel f (ps.length + ts.length + 1) ps ts h (by omega)

/-- The empty pattern matches exactly the empty text. -/
theorem likeMatch_nil (ts : List Char) : likeMatch [] ts = ts.isEmpty := rfl

/-- Stepping equation for a pattern that starts with `%`. -/
theorem likeMatch_percent (ps ts : List Char) :
    likeMatch ('%' :: ps) ts =
      (likeMatch ps ts ||
        match ts with
        | [] => false
        | _ :: tr => likeMatch ('%' :: ps) tr) := by
  rw [likeMatch, likeMatchF_succ, if_pos rfl]
  congr 1
  · exact likeMatchF_eq_likeMatch _ _ _ (by simp only [List.length_cons]; omega)
  · cases ts with
    | nil => rfl
    | cons c tr =>
      exact likeMatchF_eq_likeMatch _ _ _ (by simp only [List.length_cons]; omega)

/-- Stepping equation for a pattern that starts with an ordinary character. -/
theorem likeMatch_literal (p : Char) (h1 : p ≠ '%') (h2 : p ≠ '_')
    (h3 : p ≠ '\\') (pr ts : List Char) :
    likeMatch (p :: pr) ts =
      match ts with
      | [] => false
      | c :: tr => c == p && likeMatch pr tr := by
  rw [likeMatch, likeMatchF_succ, if_neg h1, if_neg h2, if_neg h3]
  cases ts with
  | nil => rfl
  | cons c tr =>
    dsimp only
    rw [likeMatchF_eq_likeMatch ((p :: pr).length + (c :: tr).length) pr tr
        (by simp only [List.length_cons]; omega)]

/-- The pattern `%` matches every text. -/
theorem likeMatch_single_percent (ts : List Char) : likeMatch ['%'] ts = true := by
  induction ts with
  | nil => rfl
  | cons c tr ih => rw [likeMatch_percent]; simp [ih]

/-- A pattern that starts with `%` matches exactly the texts with a matching
suffix. -/
theorem likeMatch_percent_iff (ps ts : List Char) :
    likeMatch ('%' :: ps) ts = true ↔ ∃ s, s <:+ ts ∧ likeMatch ps s = true := by
  induction ts with
  | nil =>
    rw [likeMatch_percent]
    dsimp only
    simp [List.suffix_nil]
  | cons c tr ih =>
    rw [likeMatch_percent]
    dsimp only
    simp only [Bool.or_eq_true]
    constructor
    · rintro (h | h)
      · exact ⟨c :: tr, List.suffix_refl _, h⟩
      · obtain ⟨s, hs, hm⟩ := ih.mp h
        exact ⟨s, hs.trans (List.suffix_cons c tr), hm⟩
    · rintro ⟨s, hs, hm⟩
      rcases List.suffix_cons_iff.mp hs with rfl | hs2
      · exact Or.inl hm
      · exact Or.inr (ih.mpr ⟨s, hs2, hm⟩)

/-- The pattern `%%` matches every text. -/
theorem likeMatch_double_percent (ts : List Char) :
    likeMatch ('%' :: ['%']) ts = true :=
  (likeMatch_percent_iff ['%'] ts).mpr
    ⟨ts, List.suffix_refl ts, likeMatch_single_percent ts⟩

/-- A pattern of plain characters followed by `%` matches exactly the texts
beginning with the plain characters. -/
theorem likeMatch_plain_iff (qs : List Char) :
    ∀ ts : List Char, (∀ c ∈ qs, c ≠ '%' ∧ c ≠ '_' ∧ c ≠ '\\') →
      (likeMatch (qs ++ ['%']) ts = true ↔ qs <+: ts) := by
  induction qs with
  | nil =>
    intro ts _
    simpa using likeMatch_single_percent ts
  | cons c qr ih =>
    intro ts hq
    obtain ⟨h1, h2, h3⟩ := hq c (List.mem_cons_self c qr)
    have hq2 : ∀ x ∈ qr, x ≠ '%' ∧ x ≠ '_' ∧ x ≠ '\\' :=
      fun x hx => hq x (List.mem_cons_of_mem c hx)
    rw [List.cons_append, likeMatch_literal c h1 h2 h3]
    cases ts with
    | nil => simp
    | cons t tr =>
      dsimp only
      rw [Bool.and_eq_true, beq_iff_eq, ih tr hq2, List.cons_prefix_cons]
      constructor
      · rintro ⟨ha, hb⟩; exact ⟨ha.symm, hb⟩
      · rintro ⟨ha, hb⟩; exact ⟨ha.symm, hb⟩

/-- A pattern of plain characters between two `%` matches exactly the texts
containing the plain characters contiguously. -/
theorem likeMatch_contains_iff (qs ts : List Char)
    (hq : ∀ c ∈ qs, c ≠ '%' ∧ c ≠ '_' ∧ c ≠ '\\') :
    likeMatch ('%' :: (qs ++ ['%'])) ts = true ↔ qs <:+: ts := by
  rw [likeMatch_percent_iff]
  constructor
  · rintro ⟨s, hs, hm⟩
    exact List.infix_iff_prefix_suffix.mpr ⟨s, (likeMatch_plain_iff qs s hq).mp hm, hs⟩
  · intro h
    obtain ⟨s, hp, hs⟩ := List.infix_iff_prefix_suffix.mp h
    exact ⟨s, hs, (likeMatch_plain_iff qs s hq).mpr hp⟩

/-- A valid code point survives the round trip through `Char.ofNat`. -/
theorem char_toNat_ofNat (n : Nat) (h : n.isValidChar) : (Char.ofNat n).toNat = n := by
  simp [Char.ofNat, h, Char.ofNatAux, Char.toNat]
  simp [UInt32.toNat, BitVec.toNat_ofNat]

/-- ASCII lowering maps no character onto one of the three SQL pattern
characters other than the pattern character itself. -/
theorem toLower_plain (c : Char) (h1 : c ≠ '%') (h2 : c ≠ '_') (h3 : c ≠ '\\') :
    c.toLower ≠ '%' ∧ c.toLower ≠ '_' ∧ c.toLower ≠ '\\' := by
  by_cases hc : c.toNat ≥ 65 ∧ c.toNat ≤ 90
  · have hlow : c.toLower = Char.ofNat (c.toNat + 32) := by
      simp [Char.toLower, hc]
    have hval : (c.toNat + 32).isValidChar := Or.inl (by omega)
    have htn := char_toNat_ofNat (c.toNat + 32) hval
    refine ⟨?_, ?_, ?_⟩ <;> intro he <;> rw [hlow] at he
    · have h37 : ('%' : Char).toNat = c.toNat + 32 := by rw [← he]; exact htn
      rw [show ('%' : Char).toNat = 37 from rfl] at h37
      omega
    · have h95 : ('_' : Char).toNat = c.toNat + 32 := by rw [← he]; exact htn
      rw [show ('_' : Char).toNat = 95 from rfl] at h95
      omega
    · have h92 : ('\\' : Char).toNat = c.toNat + 32 := by rw [← he]; exact htn
      rw [show ('\\' : Char).toNat = 92 from rfl] at h92
      omega
  · have hlow : c.toLower = c := by
      simp [Char.toLower, hc]
    rw [hlow]
    exact ⟨h1, h2, h3⟩

/-- Lowering a string with no SQL pattern characters yields a character list
with no SQL pattern characters. -/
theorem metaFree_lowerList {s : String} (h : metaFree s) :
    ∀ c ∈ lowerList s, c ≠ '%' ∧ c ≠ '_' ∧ c ≠ '\\' := by
  intro c hc
  obtain ⟨a, ha, rfl⟩ := List.mem_map.mp hc
  obtain ⟨h1, h2, h3⟩ := h a ha
  exact toLower_plain a h1 h2 h3

/-- Lowering distributes over string concatenation. -/
theorem lowerList_append (a b : String) :
    lowerList (a ++ b) = lowerList a ++ lowerList b := by
  simp [lowerList]

/-- Lowering the one-character string `%`. -/
theorem lowerList_percent_str : lowerList "%" = ['%'] := by decide

/-- Lowering the empty string. -/
theorem lowerList_empty : lowerList "" = [] := rfl

/-- A Boolean equals the decision of any proposition equivalent to its
truth. -/
theorem bool_eq_decide {b : Bool} {P : Prop} [Decidable P]
    (h : b = true ↔ P) : b = decide P := by
  by_cases hp : P
  · simp [hp, h.mpr hp]
  · have hb : b = false := by
      rcases Bool.eq_false_or_eq_true b with hb | hb
      · exact absurd (h.mp hb) hp
      · exact hb
    simp [hp, hb]

/-- For a trimmed query with no SQL pattern characters, the `ILIKE '%q%'`
test of `api_search` and `gallery` is exactly the case-insensitive
substring test. -/
theorem ilike_iff_substrCI (qt text : String) (hq : metaFree qt) :
    (ilike ("%" ++ qt ++ "%") text = true ↔ substrCI qt text) := by
  unfold ilike substrCI
  rw [lowerList_append, lowerList_append, lowerList_percent_str,
      List.append_assoc, List.singleton_append]
  exact likeMatch_contains_iff _ _ (metaFree_lowerList hq)

/-- With pairwise distinct design ids, looking a member up by its id finds
exactly that member. -/
theorem find_design_eq {l : List DesignRow} {d : DesignRow} {did : Nat}
    (hnd : (l.map DesignRow.id).Nodup) (hd : d ∈ l) (hid : d.id = did) :
    l.find? (fun r => r.id == did) = some d := by
  induction l with
  | nil => cases hd
  | cons x xs ih =>
    rw [List.map_cons, List.nodup_cons] at hnd
    rcases List.mem_cons.mp hd with rfl | hmem
    · exact List.find?_cons_of_pos _ (by simp [hid])
    · have hxid : ¬ (x.id == did) = true := by
        simp only [beq_iff_eq]
        intro hx
        apply hnd.1
        have hdm : d.id ∈ xs.map DesignRow.id := List.mem_map_of_mem DesignRow.id hmem
        rw [hid, ← hx] at hdm
        exact hdm
      have hstep : List.find? (fun r => r.id == did) (x :: xs) =
          List.find? (fun r => r.id == did) xs :=
        List.find?_cons_of_neg xs hxid
      rw [hstep]
      exact ih hnd.2 hmem

/-- Projecting the design back out of the joined records gives the original
design list. -/
theorem map_design_join (f : DesignRow → Option String) (l : List DesignRow) :
    (l.map (fun d => (⟨d, f d⟩ : SearchRow))).map SearchRow.design = l := by
  induction l with
  | nil => rfl
  | cons a l ih => simp only [List.map_cons, ih]

/-! Claim theorems. -/

/-- C2: deleting a category keeps every design: each design that referenced
the deleted category stays with its reference cleared to `none`, every other
design is untouched, no design row is deleted, no surviving design
references the deleted category, and only the category row itself is
removed. -/
theorem category_delete_clears_designs (cat_id : Nat) (t : Tables) :
    (admin_category_delete cat_id t).1.designs.length = t.designs.length
    ∧ (∀ d ∈ t.designs, d.category_id = some cat_id →
        { d with category_id := none } ∈ (admin_category_delete cat_id t).1.designs)
    ∧ (∀ d ∈ t.designs, d.category_id ≠ some cat_id →
        d ∈ (admin_category_delete cat_id t).1.designs)
    ∧ (∀ d ∈ (admin_category_delete cat_id t).1.designs, d.category_id ≠ some cat_id)
    ∧ (admin_category_delete cat_id t).1.categories =
        t.categories.filter (fun c => !(c.id == cat_id)) := by
  refine ⟨by simp [admin_category_delete], ?_, ?_, ?_, rfl⟩
  · intro d hd hcat
    have hm := List.mem_map_of_mem
      (fun d : DesignRow =>
        if d.category_id == some cat_id then { d with category_id := none } else d) hd
    have hfd : (fun d : DesignRow =>
        if d.category_id == some cat_id then { d with category_id := none } else d) d =
        { d with category_id := none } := by
      simp [hcat]
    rw [hfd] at hm
    simpa [admin_category_delete] using hm
  · intro d hd hcat
    have hm := List.mem_map_of_mem
      (fun d : DesignRow =>
        if d.category_id == some cat_id then { d with category_id := none } else d) hd
    have hfd : (fun d : DesignRow =>
        if d.category_id == some cat_id then { d with category_id := none } else d) d =
        d := by
      simp [hcat]
    rw [hfd] at hm
    simpa [admin_category_delete] using hm
  · intro d hd
    simp only [admin_category_delete] at hd
    obtain ⟨b, _, rfl⟩ := List.mem_map.mp hd
    by_cases hb : b.category_id = some cat_id
    · simp [hb]
    · simp [hb]

/-- Witness for C2 at a concrete state: category 7 is referenced by two
designs; after deleting it both designs survive with their reference
cleared. -/
theorem category_delete_clears_designs_witness :
    ({ id := 1, title := "a", image_url := "u", category_id := none,
       featured := 0, created_at := 3 } : DesignRow) ∈
      (admin_category_delete 7
        ⟨[], [⟨7, "Chairs", 1⟩],
          [⟨1, "a", "u", some 7, 0, 3⟩, ⟨2, "b", "v", some 9, 1, 4⟩]⟩).1.designs := by
  have h := (category_delete_clears_designs 7
    ⟨[], [⟨7, "Chairs", 1⟩],
      [⟨1, "a", "u", some 7, 0, 3⟩, ⟨2, "b", "v", some 9, 1, 4⟩]⟩).2.1
      ⟨1, "a", "u", some 7, 0, 3⟩ (by decide) rfl
  exact h

/-- C7: creating a category whose trimmed name equals the name of an
existing category leaves the whole state unchanged and answers with the
generic conflict flash (the caught unique violation), not an error. -/
theorem category_create_duplicate_conflict (raw : String) (new_id new_ts : Nat)
    (t : Tables) (c : CategoryRow) (hc : c ∈ t.categories)
    (hname : c.name = strip raw) (hne : strip raw ≠ "") :
    admin_categories_post raw new_id new_ts t =
      (t, Flash.danger "Category could not be added (maybe exists)") := by
  have hany : (t.categories.any fun cc => cc.name == strip raw) = true :=
    List.any_eq_true.mpr ⟨c, hc, by simp [hname]⟩
  simp only [admin_categories_post]
  rw [if_neg hne, if_pos hany]

/-- Witness for C7: re-adding the existing name `Chairs` (with surrounding
whitespace) changes nothing and reports the conflict. -/
theorem category_create_duplicate_conflict_witness :
    admin_categories_post " Chairs " 5 9 ⟨[], [⟨1, "Chairs", 2⟩], []⟩ =
      (⟨[], [⟨1, "Chairs", 2⟩], []⟩,
       Flash.danger "Category could not be added (maybe exists)") :=
  category_create_duplicate_conflict " Chairs " 5 9 _ ⟨1, "Chairs", 2⟩
    (by decide) (by decide) (by decide)

/-- C8: the schema bootstrap is idempotent — with existing tables `init_db`
changes nothing, the seed inserts exactly one admin row (username and the
hash of the password, nothing else) exactly when the admin table is empty,
and running the whole bootstrap twice equals running it once. -/
theorem bootstrap_idempotent (hashF : String → String) (user pw : String)
    (aid aid2 : Nat) (t : Tables) (db : Option Tables) :
    init_db (some t) = t
    ∧ (t.admins = [] →
        create_admin_if_missing hashF user pw aid t =
          { t with admins := [⟨aid, user, hashF pw⟩] })
    ∧ (t.admins ≠ [] → create_admin_if_missing hashF user pw aid t = t)
    ∧ (bootstrap hashF user pw aid db).admins ≠ []
    ∧ bootstrap hashF user pw aid2 (some (bootstrap hashF user pw aid db)) =
        bootstrap hashF user pw aid db := by
  refine ⟨rfl, ?_, ?_, ?_, ?_⟩
  · intro h
    simp [create_admin_if_missing, h]
  · intro h
    cases htA : t.admins with
    | nil => exact absurd htA h
    | cons a l => simp [create_admin_if_missing, htA]
  · unfold bootstrap
    cases h : (init_db db).admins with
    | nil => simp [create_admin_if_missing, h]
    | cons a l => simp [create_admin_if_missing, h]
  · show create_admin_if_missing hashF user pw aid2
      (init_db (some (bootstrap hashF user pw aid db))) = bootstrap hashF user pw aid db
    have hinit : init_db (some (bootstrap hashF user pw aid db)) =
        bootstrap hashF user pw aid db := rfl
    rw [hinit]
    unfold bootstrap
    cases h : (init_db db).admins with
    | nil => simp [create_admin_if_missing, h]
    | cons a l => simp [create_admin_if_missing, h]

/-- Witness for C8: bootstrapping an uncreated database seeds exactly the
default admin, and bootstrapping again changes nothing. -/
theorem bootstrap_idempotent_witness :
    create_admin_if_missing (fun p => "h" ++ p) "admin" "admin123" 1 emptyTables =
      { emptyTables with admins := [⟨1, "admin", "hadmin123"⟩] } :=
  (bootstrap_idempotent (fun p => "h" ++ p) "admin" "admin123" 1 2
      emptyTables none).2.1 rfl

/-- C9: the reset-admin route ignores the session entirely (so it also acts
for unauthenticated requests), overwrites every admin row's username and
password hash with the configured values or the fixed defaults, and returns
a body containing the new username and the new plaintext password. -/
theorem reset_admin_overwrites (hashF : String → String)
    (cfg_user cfg_pw : Option String) (s s2 : Session) (t : Tables)
    (h : t.admins.length ≤ 1) :
    reset_admin hashF cfg_user cfg_pw s t = reset_admin hashF cfg_user cfg_pw s2 t
    ∧ ∃ t2 : Tables,
        reset_admin hashF cfg_user cfg_pw s t =
          .ok (t2, "Admin updated → Username: " ++ cfg_user.getD "RBADMINS" ++
                   ", Password: " ++ cfg_pw.getD "RB_ADMINS_03")
        ∧ t2.admins.length = t.admins.length
        ∧ (∀ a ∈ t2.admins, a.username = cfg_user.getD "RBADMINS"
            ∧ a.password_hash = hashF (cfg_pw.getD "RB_ADMINS_03"))
        ∧ t2.categories = t.categories
        ∧ t2.designs = t.designs := by
  have hlt : ¬ 2 ≤ t.admins.length := by omega
  refine ⟨rfl, ⟨{ t with admins := t.admins.map fun a =>
      { a with username := cfg_user.getD "RBADMINS",
               password_hash := hashF (cfg_pw.getD "RB_ADMINS_03") } }, ?_, ?_, ?_, rfl, rfl⟩⟩
  · simp only [reset_admin]
    rw [if_neg hlt]
  · simp
  · intro a ha
    obtain ⟨b, _, rfl⟩ := List.mem_map.mp ha
    exact ⟨rfl, rfl⟩

/-- Witness for C9: on a single-admin state, an unauthenticated session
resets the credentials exactly as an authenticated one does. -/
theorem reset_admin_overwrites_witness :
    reset_admin (fun p => "h" ++ p) none none ⟨none, none⟩
        ⟨[⟨1, "admin", "old"⟩], [], []⟩ =
      reset_admin (fun p => "h" ++ p) none none ⟨some 1, some "admin"⟩
        ⟨[⟨1, "admin", "old"⟩], [], []⟩ :=
  (reset_admin_overwrites (fun p => "h" ++ p) none none ⟨none, none⟩
    ⟨some 1, some "admin"⟩ ⟨[⟨1, "admin", "old"⟩], [], []⟩ (by decide)).1

/-- C6 counterexample: the guard redirects an unauthenticated request for
`/admin/designs` to the login route carrying that path, but the subsequent
successful login redirects to `/admin`, not to the preserved path. -/
theorem login_does_not_forward_preserved_path :
    admin_required "/admin/designs" (fun t => (t, RouteResponse.page "designs"))
        ⟨none, none⟩ ⟨[⟨1, "admin", "h:pw"⟩], [], []⟩ =
      (⟨[⟨1, "admin", "h:pw"⟩], [], []⟩,
       RouteResponse.redirect "/admin/login?next=/admin/designs")
    ∧ admin_login_post (fun h p => h == "h:" ++ p) "admin" "pw"
        (some "/admin/designs") ⟨none, none⟩ ⟨[⟨1, "admin", "h:pw"⟩], [], []⟩ =
      (⟨some 1, some "admin"⟩, LoginResponse.success "/admin")
    ∧ "/admin" ≠ "/admin/designs" := by
  refine ⟨by decide, by decide, by decide⟩

/-- C6 (amended): an unauthenticated request to a guarded route is
redirected to the login route with the requested path in the `next`
parameter, but the login handler ignores that parameter and every
successful login redirects to the dashboard `/admin`. -/
theorem admin_guard_and_login :
    (∀ (path : String) (handler : Tables → Tables × RouteResponse)
        (s : Session) (t : Tables), is_logged_in s = false →
        admin_required path handler s t =
          (t, RouteResponse.redirect ("/admin/login?next=" ++ path)))
    ∧ (∀ (checkF : String → String → Bool) (u p : String)
        (nq nq2 : Option String) (s : Session) (t : Tables),
        admin_login_post checkF u p nq s t = admin_login_post checkF u p nq2 s t)
    ∧ (∀ (checkF : String → String → Bool) (u p : String) (nq : Option String)
        (s s2 : Session) (t : Tables) (loc : String),
        admin_login_post checkF u p nq s t = (s2, LoginResponse.success loc) →
        loc = "/admin") := by
  refine ⟨?_, ?_, ?_⟩
  · intro path handler s t hs
    simp [admin_required, hs]
  · intro checkF u p nq nq2 s t
    rfl
  · intro checkF u p nq s s2 t loc h
    unfold admin_login_post at h
    cases hf : t.admins.find? (fun a => a.username == u) with
    | none =>
      rw [hf] at h
      simp at h
    | some a =>
      rw [hf] at h
      dsimp only at h
      by_cases hchk : checkF a.password_hash p
      · rw [if_pos hchk] at h
        have h2 := congrArg Prod.snd h
        simp only at h2
        injection h2 with h3
        exact h3.symm
      · rw [if_neg hchk] at h
        simp at h

/-- Witness for C6: concrete instance of the guard redirect. -/
theorem admin_guard_and_login_witness :
    admin_required "/admin/categories" (fun t => (t, RouteResponse.page "cats"))
        ⟨none, none⟩ emptyTables =
      (emptyTables, RouteResponse.redirect ("/admin/login?next=" ++ "/admin/categories")) :=
  admin_guard_and_login.1 "/admin/categories"
    (fun t => (t, RouteResponse.page "cats")) ⟨none, none⟩ emptyTables rfl

/-- C3: creating a design with an empty trimmed title or image URL reports
the validation failure and changes nothing; otherwise (for a submission
whose category field is absent, empty, or names an existing category)
exactly one design row is appended, carrying the trimmed title and URL, no
category reference when the field was absent or empty, and featured 0
unless the checkbox value was `on`. -/
theorem design_create_validates_and_inserts (form : DesignForm)
    (new_id new_ts : Nat) (t : Tables)
    (hcat : formCategory form.category = none ∨
      ∃ s2 cid, formCategory form.category = some s2 ∧ parseNat? s2 = some cid ∧
        (t.categories.any fun c => c.id == cid) = true) :
    (strip (form.title.getD "") = "" ∨ strip (form.image_url.getD "") = "" →
      admin_design_add form new_id new_ts t = (t, DesignWriteResponse.validationError))
    ∧ (strip (form.title.getD "") ≠ "" → strip (form.image_url.getD "") ≠ "" →
        (admin_design_add form new_id new_ts t).2 =
          DesignWriteResponse.done (Flash.success "Design added")
        ∧ ∃ d : DesignRow,
            (admin_design_add form new_id new_ts t).1.designs = t.designs ++ [d]
            ∧ (admin_design_add form new_id new_ts t).1.categories = t.categories
            ∧ (admin_design_add form new_id new_ts t).1.admins = t.admins
            ∧ d.title = strip (form.title.getD "")
            ∧ d.image_url = strip (form.image_url.getD "")
            ∧ (form.category = none ∨ form.category = some "" → d.category_id = none)
            ∧ (form.featured ≠ some "on" → d.featured = 0)
            ∧ (form.featured = some "on" → d.featured = 1)) := by
  constructor
  · intro h
    simp only [admin_design_add]
    rw [if_pos h]
  · intro h1 h2
    have hcond : ¬ (strip (form.title.getD "") = "" ∨ strip (form.image_url.getD "") = "") := by
      rintro (hx | hx)
      · exact h1 hx
      · exact h2 hx
    simp only [admin_design_add]
    rw [if_neg hcond]
    rcases hcat with hnone | ⟨s2, cid, hs, hp, hany⟩
    · rw [hnone]
      refine ⟨rfl, ⟨⟨new_id, strip (form.title.getD ""), strip (form.image_url.getD ""),
          none, if form.featured == some "on" then 1 else 0, new_ts⟩,
        rfl, rfl, rfl, rfl, rfl, fun _ => rfl, ?_, ?_⟩⟩
      · intro hne
        simp only
        rw [if_neg (by simpa using hne)]
      · intro heq
        simp only
        rw [if_pos (by simp [heq])]
    · rw [hs]
      dsimp only
      rw [hp]
      dsimp only
      rw [if_pos hany]
      refine ⟨rfl, ⟨⟨new_id, strip (form.title.getD ""), strip (form.image_url.getD ""),
          some cid, if form.featured == some "on" then 1 else 0, new_ts⟩,
        rfl, rfl, rfl, rfl, rfl, ?_, ?_, ?_⟩⟩
      · rintro (hx | hx) <;> rw [hx] at hs <;> simp [formCategory] at hs
      · intro hne
        simp only
        rw [if_neg (by simpa using hne)]
      · intro heq
        simp only
        rw [if_pos (by simp [heq])]

/-- Witness for C3: an empty title is rejected without an insert, and a full
submission with the `on` checkbox inserts the featured design. -/
theorem design_create_validates_and_inserts_witness :
    admin_design_add ⟨some " ", some "lamp.png", none, none⟩ 1 10 emptyTables =
      (emptyTables, DesignWriteResponse.validationError) :=
  (design_create_validates_and_inserts ⟨some " ", some "lamp.png", none, none⟩
      1 10 emptyTables (Or.inl rfl)).1 (Or.inl (by decide))

/-- C1: toggling the featured flag of a nonexistent design id answers the
structured not-found failure and leaves the state untouched; for an
existing id (under the primary key's id uniqueness) it flips the stored
flag, keeps everything else, answers the new value in the success payload,
and toggling twice restores the original state. -/
theorem toggle_featured_spec (t : Tables) (did : Nat)
    (hnd : (t.designs.map DesignRow.id).Nodup) :
    ((∀ d ∈ t.designs, d.id ≠ did) →
      toggle_featured did t = (t, ToggleResponse.notFound))
    ∧ (∀ d ∈ t.designs, d.id = did →
        (toggle_featured did t).2 =
          ToggleResponse.ok (if d.featured == 0 then 1 else 0)
        ∧ (toggle_featured did t).1.designs.length = t.designs.length
        ∧ { d with featured := if d.featured == 0 then 1 else 0 } ∈
            (toggle_featured did t).1.designs
        ∧ (∀ r ∈ t.designs, r.id ≠ did → r ∈ (toggle_featured did t).1.designs)
        ∧ (toggle_featured did t).1.categories = t.categories
        ∧ (toggle_featured did t).1.admins = t.admins
        ∧ (d.featured = 0 ∨ d.featured = 1 →
            (toggle_featured did (toggle_featured did t).1).1 = t)) := by
  constructor
  · intro h
    have hfind : t.designs.find? (fun r => r.id == did) = none :=
      List.find?_eq_none.mpr (fun x hx => by simp [h x hx])
    simp only [toggle_featured, hfind]
  · intro d hd hid
    have hfind : t.designs.find? (fun r => r.id == did) = some d :=
      find_design_eq hnd hd hid
    have hdid : (d.id == did) = true := by simp [hid]
    refine ⟨?_, ?_, ?_, ?_, ?_, ?_, ?_⟩
    · simp only [toggle_featured, hfind]
    · simp only [toggle_featured, hfind]
      exact List.length_map _ _
    · simp only [toggle_featured, hfind]
      have hm := List.mem_map_of_mem
        (fun r : DesignRow => if r.id == did
          then { r with featured := if d.featured == 0 then 1 else 0 } else r) hd
      have hfd : (fun r : DesignRow => if r.id == did
          then { r with featured := if d.featured == 0 then 1 else 0 } else r) d =
          { d with featured := if d.featured == 0 then 1 else 0 } := by
        simp [hdid]
      rw [hfd] at hm
      exact hm
    · intro r hr hne
      simp only [toggle_featured, hfind]
      have hm := List.mem_map_of_mem
        (fun r : DesignRow => if r.id == did
          then { r with featured := if d.featured == 0 then 1 else 0 } else r) hr
      have hfr : (fun r : DesignRow => if r.id == did
          then { r with featured := if d.featured == 0 then 1 else 0 } else r) r = r := by
        simp [hne]
      rw [hfr] at hm
      exact hm
    · simp only [toggle_featured, hfind]
    · simp only [toggle_featured, hfind]
    · intro hf01
      set new : Nat := if d.featured == 0 then 1 else 0 with hnew
      set g : DesignRow → DesignRow := fun r => if r.id == did
        then { r with featured := new } else r with hg
      have ht1 : (toggle_featured did t).1 = { t with designs := t.designs.map g } := by
        simp only [toggle_featured, hfind]
      have hgid : ∀ r : DesignRow, (g r).id = r.id := by
        intro r
        rw [hg]
        dsimp only
        by_cases hr : (r.id == did) = true
        · rw [if_pos hr]
        · rw [if_neg hr]
      have hgd : g d = { d with featured := new } := by
        rw [hg]
        dsimp only
        rw [if_pos hdid]
      have hfind2 : (t.designs.map g).find? (fun r => r.id == did) = some (g d) := by
        rw [List.find?_map]
        have hpg : ((fun r : DesignRow => r.id == did) ∘ g) =
            (fun r : DesignRow => r.id == did) := by
          funext r
          simp [Function.comp, hgid r]
        rw [hpg, hfind]
        rfl
      rw [ht1]
      simp only [toggle_featured, hfind2]
      rw [List.map_map]
      have hpt : ∀ r ∈ t.designs,
          ((fun r : DesignRow => if r.id == did
            then { r with featured := if (g d).featured == 0 then 1 else 0 }
            else r) ∘ g) r = r := by
        intro r hr
        by_cases hrid : (r.id == did) = true
        · have hrd : r = d := by
            apply List.inj_on_of_nodup_map hnd hr hd
            rw [hid]
            simpa using hrid
          subst hrd
          simp only [Function.comp_apply]
          rw [hgd]
          dsimp only
          rw [if_pos hdid]
          have hnn : (if new == 0 then 1 else 0 : Nat) = r.featured := by
            rcases hf01 with h0 | h1
            · simp [hnew, h0]
            · simp [hnew, h1]
          rw [hnn]
        · simp only [Function.comp_apply]
          have hgr : g r = r := by
            rw [hg]
            dsimp only
            rw [if_neg hrid]
          rw [hgr]
          rw [if_neg hrid]
      rw [List.map_congr_left hpt, List.map_id']

/-- Witness for C1: toggling design 1 twice restores the original state, and
toggling a missing id reports not-found. -/
theorem toggle_featured_spec_witness :
    toggle_featured 9 ⟨[], [], [⟨1, "Lamp", "lamp.png", none, 0, 5⟩]⟩ =
      (⟨[], [], [⟨1, "Lamp", "lamp.png", none, 0, 5⟩]⟩, ToggleResponse.notFound) :=
  (toggle_featured_spec ⟨[], [], [⟨1, "Lamp", "lamp.png", none, 0, 5⟩]⟩ 9
    (by decide)).1 (by decide)

/-- C4 counterexample: starting from a bootstrapped state, adding the valid
design `Lamp` and then editing it with an empty title field produces a
design row whose title is the empty string — the design edit route does not
validate, so the non-empty-text invariant is not preserved by every
operation. -/
theorem design_edit_breaks_nonempty_title :
    DesignsNonEmptyText
      (applyOp (.designAdd ⟨some "Lamp", some "lamp.png", none, none⟩ 1 10)
        (bootstrap (fun p => "h" ++ p) "admin" "admin123" 1 none))
    ∧ ((applyOp (.designEdit 1 ⟨some "", some "lamp.png", none, none⟩)
        (applyOp (.designAdd ⟨some "Lamp", some "lamp.png", none, none⟩ 1 10)
          (bootstrap (fun p => "h" ++ p) "admin" "admin123" 1 none))).designs.map
        DesignRow.title) = [""]
    ∧ ¬ DesignsNonEmptyText
        (applyOp (.designEdit 1 ⟨some "", some "lamp.png", none, none⟩)
          (applyOp (.designAdd ⟨some "Lamp", some "lamp.png", none, none⟩ 1 10)
            (bootstrap (fun p => "h" ++ p) "admin" "admin123" 1 none))) := by
  refine ⟨by decide, by decide, by decide⟩

/-- C4 (amended): every state-changing operation except design edit
preserves the invariant that each design row's title and image URL are
non-empty; design edit preserves it exactly under the side condition that
its own submitted trimmed title and image URL are non-empty, since the
handler stores them without validation. -/
theorem applyOp_preserves_design_text (op : AdminOp) (t : Tables)
    (hinv : DesignsNonEmptyText t) (hok : editValidated op) :
    DesignsNonEmptyText (applyOp op t) := by
  cases op with
  | categoryAdd n i ts =>
    intro d hd
    have hds : (applyOp (AdminOp.categoryAdd n i ts) t).designs = t.designs := by
      show (admin_categories_post n i ts t).1.designs = t.designs
      simp only [admin_categories_post]
      split_ifs <;> rfl
    rw [hds] at hd
    exact hinv d hd
  | categoryEdit i n =>
    intro d hd
    have hds : (applyOp (AdminOp.categoryEdit i n) t).designs = t.designs := by
      show (admin_category_edit i n t).designs = t.designs
      simp only [admin_category_edit]
      split_ifs <;> rfl
    rw [hds] at hd
    exact hinv d hd
  | categoryDelete i =>
    intro d hd
    have hd2 : d ∈ t.designs.map (fun b : DesignRow =>
        if b.category_id == some i then { b with category_id := none } else b) := hd
    rcases List.mem_map.mp hd2 with ⟨b, hb, rfl⟩
    obtain ⟨hb1, hb2⟩ := hinv b hb
    by_cases hc : (b.category_id == some i) = true
    · dsimp only
      rw [if_pos hc]
      exact ⟨hb1, hb2⟩
    · dsimp only
      rw [if_neg hc]
      exact ⟨hb1, hb2⟩
  | designAdd f i ts =>
    intro d hd
    have hd2 : d ∈ (admin_design_add f i ts t).1.designs := hd
    revert hd2
    simp only [admin_design_add]
    by_cases hval : strip (f.title.getD "") = "" ∨ strip (f.image_url.getD "") = ""
    · rw [if_pos hval]
      intro hd2
      exact hinv d hd2
    · rw [if_neg hval]
      rw [not_or] at hval
      have hrow : ∀ c : Option Nat, d ∈ t.designs ++
          [⟨i, strip (f.title.getD ""), strip (f.image_url.getD ""), c,
            if f.featured == some "on" then 1 else 0, ts⟩] →
          d.title ≠ "" ∧ d.image_url ≠ "" := by
        intro c hd2
        rcases List.mem_append.mp hd2 with hmem | hmem
        · exact hinv d hmem
        · rcases List.mem_singleton.mp hmem with rfl
          exact ⟨hval.1, hval.2⟩
      cases hcat : formCategory f.category with
      | none =>
        dsimp only
        intro hd2
        exact hrow none hd2
      | some s =>
        dsimp only
        cases hps : parseNat? s with
        | none =>
          dsimp only
          intro hd2
          exact hinv d hd2
        | some cid =>
          dsimp only
          by_cases hany : (t.categories.any fun c => c.id == cid) = true
          · rw [if_pos hany]
            intro hd2
            exact hrow (some cid) hd2
          · rw [if_neg hany]
            intro hd2
            exact hinv d hd2
  | designEdit i f =>
    intro d hd
    obtain ⟨hok1, hok2⟩ := hok
    have hd2 : d ∈ (admin_design_edit i f t).1.designs := hd
    revert hd2
    simp only [admin_design_edit]
    have hupd : ∀ c : Option Nat, d ∈ t.designs.map (fun b : DesignRow =>
        if b.id == i
        then { b with title := strip (f.title.getD ""),
                      image_url := strip (f.image_url.getD ""),
                      category_id := c,
                      featured := if f.featured == some "on" then 1 else 0 }
        else b) →
        d.title ≠ "" ∧ d.image_url ≠ "" := by
      intro c hd2
      rcases List.mem_map.mp hd2 with ⟨b, hb, rfl⟩
      by_cases hbid : (b.id == i) = true
      · dsimp only
        rw [if_pos hbid]
        exact ⟨hok1, hok2⟩
      · dsimp only
        rw [if_neg hbid]
        exact hinv b hb
    cases hcat : formCategory f.category with
    | none =>
      dsimp only
      intro hd2
      exact hupd none hd2
    | some s =>
      dsimp only
      cases hps : parseNat? s with
      | none =>
        dsimp only
        intro hd2
        exact hinv d hd2
      | some cid =>
        dsimp only
        by_cases hfk : ((t.designs.any fun b => b.id == i)
            && !(t.categories.any fun c => c.id == cid)) = true
        · rw [if_pos hfk]
          intro hd2
          exact hinv d hd2
        · rw [if_neg hfk]
          intro hd2
          exact hupd (some cid) hd2
  | designDelete i =>
    intro d hd
    have hd2 : d ∈ t.designs.filter (fun b => !(b.id == i)) := hd
    exact hinv d (List.mem_of_mem_filter hd2)
  | toggleFeatured i =>
    intro d hd
    have hd2 : d ∈ (toggle_featured i t).1.designs := hd
    revert hd2
    cases hf : t.designs.find? (fun b => b.id == i) with
    | none =>
      simp only [toggle_featured, hf]
      intro hd2
      exact hinv d hd2
    | some cur =>
      simp only [toggle_featured, hf]
      intro hd2
      rcases List.mem_map.mp hd2 with ⟨b, hb, rfl⟩
      obtain ⟨hb1, hb2⟩ := hinv b hb
      by_cases hbid : (b.id == i) = true
      · dsimp only
        rw [if_pos hbid]
        exact ⟨hb1, hb2⟩
      · dsimp only
        rw [if_neg hbid]
        exact ⟨hb1, hb2⟩
  | adminReset h u p =>
    intro d hd
    revert hd
    show d ∈ (match reset_admin h u p ⟨none, none⟩ t with
      | .ok (t2, _) => t2
      | .error _ => t).designs → d.title ≠ "" ∧ d.image_url ≠ ""
    by_cases hlen : 2 ≤ t.admins.length
    · have hre : reset_admin h u p ⟨none, none⟩ t = .error .uniqueViolation := by
        simp only [reset_admin]
        rw [if_pos hlen]
      rw [hre]
      intro hd
      exact hinv d hd
    · have hre : reset_admin h u p ⟨none, none⟩ t =
          .ok ({ t with admins := t.admins.map fun a =>
            { a with username := u.getD "RBADMINS",
                     password_hash := h (p.getD "RB_ADMINS_03") } },
            "Admin updated → Username: " ++ u.getD "RBADMINS" ++
            ", Password: " ++ p.getD "RB_ADMINS_03") := by
        simp only [reset_admin]
        rw [if_neg hlen]
      rw [hre]
      intro hd
      exact hinv d hd
  | adminSeed h u p i =>
    intro d hd
    have hd2 : d ∈ (create_admin_if_missing h u p i t).designs := hd
    revert hd2
    cases ha : t.admins with
    | nil =>
      simp only [create_admin_if_missing, ha]
      intro hd2
      exact hinv d hd2
    | cons a l =>
      simp only [create_admin_if_missing, ha]
      intro hd2
      exact hinv d hd2

/-- Witness for C4: the toggle operation preserves the invariant on a
concrete state. -/
theorem applyOp_preserves_design_text_witness :
    DesignsNonEmptyText (applyOp (AdminOp.toggleFeatured 1)
      ⟨[], [], [⟨1, "Lamp", "lamp.png", none, 0, 5⟩]⟩) :=
  applyOp_preserves_design_text (AdminOp.toggleFeatured 1)
    ⟨[], [], [⟨1, "Lamp", "lamp.png", none, 0, 5⟩]⟩ (by decide) trivial

/-- C5 counterexample: for the query `_` (an SQL pattern character, left
intact by trimming) the search returns the design titled `ab`, although
`_` is not a case-insensitive substring of either its title or its image
URL — the `ILIKE` match is pattern matching, not plain substring search. -/
theorem api_search_wildcard_counterexample :
    strip "_" = "_"
    ∧ ((api_search (some "_") ⟨[], [], [⟨1, "ab", "ab.png", none, 0, 5⟩]⟩).map
        (fun r => r.design.id)) = [1]
    ∧ ¬ substrCI "_" "ab"
    ∧ ¬ substrCI "_" "ab.png" := by
  refine ⟨by decide, by decide, by decide, by decide⟩

/-- C5 (amended): for a query whose trimmed form contains none of the SQL
pattern characters `%`, `_`, backslash, the search API returns exactly the
designs whose title or image URL contains the trimmed query as a
case-insensitive substring, sorted featured-first then newest-first with no
size cap, each record carrying the joined category name; and the gallery
route (without a category filter) produces the identical record list. -/
theorem api_search_substring_spec (q : String) (t : Tables)
    (hq : metaFree (strip q)) :
    ((api_search (some q) t).map SearchRow.design).Perm
        (t.designs.filter fun d =>
          decide (substrCI (strip q) d.title) || decide (substrCI (strip q) d.image_url))
    ∧ List.Sorted designOrder ((api_search (some q) t).map SearchRow.design)
    ∧ (∀ r ∈ api_search (some q) t, r.category_name = joined_category_name t r.design)
    ∧ gallery_designs (some q) none t = api_search (some q) t := by
  have hfil : t.designs.filter (fun d =>
      ilike ("%" ++ strip q ++ "%") d.title || ilike ("%" ++ strip q ++ "%") d.image_url)
      = t.designs.filter (fun d =>
      decide (substrCI (strip q) d.title) || decide (substrCI (strip q) d.image_url)) := by
    apply List.filter_congr
    intro d _
    congr 1
    · exact bool_eq_decide (ilike_iff_substrCI (strip q) d.title hq)
    · exact bool_eq_decide (ilike_iff_substrCI (strip q) d.image_url hq)
  have hapi : api_search (some q) t = (List.insertionSort designOrder
      (t.designs.filter (fun d =>
        decide (substrCI (strip q) d.title) ||
        decide (substrCI (strip q) d.image_url)))).map
      (fun d => ⟨d, joined_category_name t d⟩) := by
    simp only [api_search, Option.getD]
    rw [hfil]
  refine ⟨?_, ?_, ?_, ?_⟩
  · rw [hapi, map_design_join]
    exact List.perm_insertionSort designOrder _
  · rw [hapi, map_design_join]
    exact List.sorted_insertionSort designOrder _
  · intro r hr
    rw [hapi] at hr
    obtain ⟨b, _, rfl⟩ := List.mem_map.mp hr
    rfl
  · show gallery_designs (some q) none t = api_search (some q) t
    simp only [gallery_designs, api_search, Option.getD]
    apply congrArg (List.map (fun d => (⟨d, joined_category_name t d⟩ : SearchRow)))
    apply congrArg (List.insertionSort designOrder)
    apply List.filter_congr
    intro d _
    by_cases hqt : strip q = ""
    · have hpp : lowerList "%%" = '%' :: ['%'] := by decide
      have h1 : ilike "%%" d.title = true := by
        unfold ilike
        rw [hpp]
        exact likeMatch_double_percent _
      have h2 : ilike "%%" d.image_url = true := by
        unfold ilike
        rw [hpp]
        exact likeMatch_double_percent _
      simp [hqt, h1, h2]
    · simp [hqt]

/-- Witness for C5 at the spec's own example: searching `chair` over the
designs `Blue Chair` and `Red Table` returns exactly `Blue Chair`. -/
theorem api_search_substring_spec_witness :
    ((api_search (some "chair")
        ⟨[], [], [⟨1, "Blue Chair", "a.png", none, 0, 5⟩,
                  ⟨2, "Red Table", "b.png", none, 0, 6⟩]⟩).map SearchRow.design).Perm
      ((⟨[], [], [⟨1, "Blue Chair", "a.png", none, 0, 5⟩,
                  ⟨2, "Red Table", "b.png", none, 0, 6⟩]⟩ : Tables).designs.filter
        fun d => decide (substrCI (strip "chair") d.title) ||
                 decide (substrCI (strip "chair") d.image_url)) :=
  (api_search_substring_spec "chair"
    ⟨[], [], [⟨1, "Blue Chair", "a.png", none, 0, 5⟩,
              ⟨2, "Red Table", "b.png", none, 0, 6⟩]⟩ (by decide)).1

/-- C10: with an absent, empty, or whitespace-only query the trimmed query
is empty, and the search API returns every design in the table, ordered
featured-first then newest-first, with the joined category names. -/
theorem api_search_blank_query (q : Option String) (t : Tables)
    (h : strip (q.getD "") = "") :
    api_search q t = (List.insertionSort designOrder t.designs).map
        (fun d => ⟨d, joined_category_name t d⟩)
    ∧ ((api_search q t).map SearchRow.design).Perm t.designs
    ∧ List.Sorted designOrder ((api_search q t).map SearchRow.design) := by
  have hall : ∀ text : String, ilike ("%" ++ strip (q.getD "") ++ "%") text = true := by
    intro text
    rw [h]
    unfold ilike
    rw [lowerList_append, lowerList_append, lowerList_percent_str, lowerList_empty,
        List.append_nil, List.singleton_append]
    exact likeMatch_double_percent _
  have hfil : t.designs.filter (fun d =>
      ilike ("%" ++ strip (q.getD "") ++ "%") d.title ||
      ilike ("%" ++ strip (q.getD "") ++ "%") d.image_url) = t.designs := by
    apply List.filter_eq_self.mpr
    intro d _
    rw [hall d.title, hall d.image_url]
    rfl
  have hapi : api_search q t = (List.insertionSort designOrder t.designs).map
      (fun d => ⟨d, joined_category_name t d⟩) := by
    simp only [api_search]
    rw [hfil]
  refine ⟨hapi, ?_, ?_⟩
  · rw [hapi, map_design_join]
    exact List.perm_insertionSort designOrder t.designs
  · rw [hapi, map_design_join]
    exact List.sorted_insertionSort designOrder t.designs

/-- Witness for C10: a whitespace-only query returns the whole design
table. -/
theorem api_search_blank_query_witness :
    ((api_search (some "   ") ⟨[], [], [⟨1, "Lamp", "l.png", none, 0, 5⟩,
        ⟨2, "Vase", "v.png", none, 1, 6⟩]⟩).map SearchRow.design).Perm
      [⟨1, "Lamp", "l.png", none, 0, 5⟩, ⟨2, "Vase", "v.png", none, 1, 6⟩] :=
  (api_search_blank_query (some "   ")
    ⟨[], [], [⟨1, "Lamp", "l.png", none, 0, 5⟩, ⟨2, "Vase", "v.png", none, 1, 6⟩]⟩
    (by decide)).2.1

end Crystiq
